import Mathlib

/-!
Verification of the core tangle engine of the Proxima node against its
natural-language specification.  The Go source is shallowly embedded:
machine integers become `Nat` with explicit `% 2^w` where overflow matters,
byte slices become `List Nat`, assertions (`util.Assertf`) become `Option` /
preconditions, and fallible functions return `Except` / `Option`.
-/

namespace Proxima

/-! ## Big-endian byte encoding (encoding/binary, big-endian) -/

/-- Big-endian encoding of `n` into exactly `k` bytes
(`binary.BigEndian.PutUint64` / `PutUint32` with `k = 8` / `4`). -/
def beBytes : Nat → Nat → List Nat
  | 0, _ => []
  | k + 1, n => beBytes k (n / 256) ++ [n % 256]

/-- Big-endian decoding of a byte string
(`binary.BigEndian.Uint64` / `Uint32`). -/
def beVal (bs : List Nat) : Nat :=
  bs.foldl (fun a b => a * 256 + b) 0

theorem beBytes_length (k n : Nat) : (beBytes k n).length = k := by
  induction k generalizing n with
  | zero => rfl
  | succ k ih => simp [beBytes, ih]

theorem beVal_snoc (bs : List Nat) (b : Nat) :
    beVal (bs ++ [b]) = beVal bs * 256 + b := by
  simp [beVal]

theorem beVal_beBytes (k n : Nat) : beVal (beBytes k n) = n % 256 ^ k := by
  induction k generalizing n with
  | zero => simp [beBytes, beVal, Nat.mod_one]
  | succ k ih =>
      rw [beBytes, beVal_snoc, ih]
      have h1 : n / 256 % 256 ^ k = n % (256 * 256 ^ k) / 256 :=
        Nat.div_mod_eq_mod_mul_div n 256 (256 ^ k)
      have h2 : n % (256 * 256 ^ k) % 256 = n % 256 :=
        Nat.mod_mod_of_dvd n ⟨256 ^ k, rfl⟩
      have h4 : 256 ^ (k + 1) = 256 * 256 ^ k := by ring
      rw [h1, h4]
      omega

theorem beVal_beBytes_of_lt {k n : Nat} (h : n < 256 ^ k) :
    beVal (beBytes k n) = n := by
  rw [beVal_beBytes, Nat.mod_eq_of_lt h]

/-! ## Length-prefixed arrays

Modelled from the spec: the persisted `RootRecord` is "a fixed-order
sequence of six length-prefixed fields" serialised through the
`lazybytes` array helper, whose source is not part of this repository.
Each element is written as a 2-byte big-endian length followed by the
element bytes; parsing expects an exact element count and consumes the
whole input. -/

/-- Modelled from the spec: one length-prefixed field of a serialised array. -/
def serField (f : List Nat) : List Nat :=
  beBytes 2 f.length ++ f

/-- Modelled from the spec: serialisation of a `lazybytes` array
(`arr.Bytes()` after the pushes). -/
def serArr (fs : List (List Nat)) : List Nat :=
  (fs.map serField).flatten

/-- Modelled from the spec: parsing of a serialised array with exactly `n`
elements (`lazybytes.ParseArrayFromBytesReadOnly(data, n)`); fails on
truncated input or trailing bytes. -/
def parseFields : Nat → List Nat → Option (List (List Nat))
  | 0, [] => some []
  | 0, _ :: _ => none
  | n + 1, a :: b :: rest =>
      let len := a * 256 + b
      if len ≤ rest.length then
        match parseFields n (rest.drop len) with
        | some fs => some (rest.take len :: fs)
        | none => none
      else none
  | _ + 1, [] => none
  | _ + 1, [_] => none

theorem parseFields_serArr (fs : List (List Nat))
    (h : ∀ f ∈ fs, f.length < 65536) :
    parseFields fs.length (serArr fs) = some fs := by
  induction fs with
  | nil => rfl
  | cons f fs ih =>
      have hf : f.length < 65536 := h f (List.mem_cons_self _ _)
      have hrest : ∀ g ∈ fs, g.length < 65536 :=
        fun g hg => h g (List.mem_cons_of_mem _ hg)
      have hdiv : f.length / 256 < 256 := by omega
      have hb : beBytes 2 f.length =
          [f.length / 256 % 256, f.length % 256] := by
        simp [beBytes]
      have hlen : f.length / 256 % 256 * 256 + f.length % 256 = f.length := by
        rw [Nat.mod_eq_of_lt hdiv]
        omega
      show parseFields (fs.length + 1) (serArr (f :: fs)) = some (f :: fs)
      have hser : serArr (f :: fs) =
          f.length / 256 % 256 :: f.length % 256 :: (f ++ serArr fs) := by
        simp [serArr, serField, hb]
      rw [hser]
      simp only [parseFields, hlen]
      have hle : f.length ≤ (f ++ serArr fs).length := by
        simp
      rw [if_pos hle]
      have hdrop : (f ++ serArr fs).drop f.length = serArr fs :=
        List.drop_left f (serArr fs)
      have htake : (f ++ serArr fs).take f.length = f :=
        List.take_left f (serArr fs)
      rw [hdrop, htake, ih hrest]

/-! ## RootRecord (multistate) -/

/-- `multistate.RootRecord`: the persisted per-branch metadata.
`SequencerID` (`ledger.ChainID`, 32 bytes) and `Root` (trie commitment,
kept abstract as its raw bytes) are byte strings; the three `uint64`
fields and the `uint32` field are `Nat`s bounded by the word size. -/
structure RootRecord where
  Root : List Nat
  SequencerID : List Nat
  LedgerCoverage : Nat
  SlotInflation : Nat
  Supply : Nat
  NumTransactions : Nat
  deriving Repr, DecidableEq

/-- `numberOfElementsInRootRecord` -/
def numberOfElementsInRootRecord : Nat := 6

/-- `(*RootRecord).Bytes()`: pushes the six fields in fixed order into a
`lazybytes` array; the leading `util.Assertf(r.LedgerCoverage > 0, ...)`
is modelled by returning `none` (panic) when the coverage is zero. -/
def RootRecord.Bytes (r : RootRecord) : Option (List Nat) :=
  if r.LedgerCoverage > 0 then
    some (serArr [r.SequencerID, r.Root,
      beBytes 8 r.LedgerCoverage, beBytes 8 r.SlotInflation,
      beBytes 8 r.Supply, beBytes 4 r.NumTransactions])
  else none

/-- Modelled from the spec: `ledger.ChainIDFromBytes` (the source of the
`ledger.ChainID` type is not in this repository); a ChainId is a "32-byte
identifier", so exactly 32 bytes are accepted. -/
def ChainIDFromBytes (bs : List Nat) : Except String (List Nat) :=
  if bs.length = 32 then .ok bs else .error "wrong data length"

/-- Modelled from the spec: `common.VectorCommitmentFromBytes` of the trie
library (not in this repository); the commitment is kept abstract as its
raw bytes and parsing is the identity. -/
def VectorCommitmentFromBytes (bs : List Nat) : Except String (List Nat) :=
  .ok bs

/-- `multistate.RootRecordFromBytes`: parse the six-element array, decode
sequencer id and root commitment, reject wrong lengths of the three
8-byte fields and the 4-byte field, and decode them big-endian. -/
def RootRecordFromBytes (data : List Nat) : Except String RootRecord :=
  match parseFields numberOfElementsInRootRecord data with
  | none => .error "parse error"
  | some fields =>
    match fields with
    | [f0, f1, f2, f3, f4, f5] =>
      match ChainIDFromBytes f0 with
      | .error e => .error e
      | .ok chainID =>
        match VectorCommitmentFromBytes f1 with
        | .error e => .error e
        | .ok root =>
          if f2.length = 8 ∧ f3.length = 8 ∧ f4.length = 8 ∧ f5.length = 4 then
            .ok { Root := root
                  SequencerID := chainID
                  LedgerCoverage := beVal f2
                  SlotInflation := beVal f3
                  Supply := beVal f4
                  NumTransactions := beVal f5 }
          else .error "wrong data length"
    | _ => .error "wrong number of elements"

/-! ## Coverage threshold (multistate) -/

/-- `multistate.ValidInclusionThresholdFraction`; the Go arguments are
signed `int`s, so the domain is `Int`. -/
def ValidInclusionThresholdFraction (numerator denominator : Int) : Bool :=
  numerator > 0 && denominator > 0 && numerator < denominator && denominator ≥ 2

/-- `multistate.AbsoluteStrongFinalityCoverageThreshold`:
`((supply / uint64(denominator)) * uint64(numerator)) << 1` in `uint64`
arithmetic (the callers guarantee positive arguments, so the `Int → uint64`
conversions are the canonical embeddings). -/
def AbsoluteStrongFinalityCoverageThreshold (supply numerator denominator : Nat) : Nat :=
  (supply / denominator * numerator % 2 ^ 64) * 2 % 2 ^ 64

/-- `(*RootRecord).IsCoverageAboveThreshold`; the `util.Assertf` on the
fraction validity is a precondition carried by the theorems. -/
def RootRecord.IsCoverageAboveThreshold (r : RootRecord) (numerator denominator : Nat) : Bool :=
  r.LedgerCoverage > AbsoluteStrongFinalityCoverageThreshold r.Supply numerator denominator

/-! ## Latest-slot fetch (multistate) -/

/-- The KV-store partition tags (spec §6.3: `ROOT(1)`, `LATEST(2)`). -/
def rootRecordDBPartition : Nat := 1

def latestSlotDBPartition : Nat := rootRecordDBPartition + 1

/-- Modelled from the spec: `ledger.SlotFromBytes` (not in this
repository); a slot is a `u32`, serialised as 4 bytes big-endian, and any
other length is rejected. -/
def SlotFromBytes (bs : List Nat) : Except String Nat :=
  if bs.length = 4 then .ok (beVal bs) else .error "wrong data length"

/-- A `common.KVReader`: `Get` returns the value bytes, with the empty
slice standing for a missing key. -/
def KVReader : Type := List Nat → List Nat

/-- `multistate.FetchLatestSlot`: empty value decodes to slot 0; otherwise
the value is decoded, `common.AssertNoError` panicking (`none`) on a
malformed value. -/
def FetchLatestSlot (store : KVReader) : Option Nat :=
  let bin := store [latestSlotDBPartition]
  if bin = [] then some 0
  else match SlotFromBytes bin with
    | .ok s => some s
    | .error _ => none

/-! ## Transaction inclusion score (api) -/

/-- One entry of `multistate.TxInclusion.Inclusion`: whether the
transaction is known to the branch of one tip, together with that
branch's root record. -/
structure InclusionEntry where
  RootRecord : RootRecord
  Included : Bool

/-- `api.TxInclusionScore` -/
structure TxInclusionScore where
  ThresholdNumerator : Nat
  ThresholdDenominator : Nat
  LatestSlot : Nat
  EarliestSlot : Nat
  StrongScore : Nat
  WeakScore : Nat
  deriving Repr, DecidableEq

/-- `multistate.TxInclusion` (the fields `CalcTxInclusionScore` reads). -/
structure TxInclusion where
  LatestSlot : Nat
  EarliestSlot : Nat
  Inclusion : List InclusionEntry

/-- The loop body of `api.CalcTxInclusionScore`: accumulates
`(includedInBranches, numDominatingBranches, numIncludedInDominating)`. -/
def inclusionCounts (entries : List InclusionEntry)
    (num den : Nat) : Nat × Nat × Nat :=
  entries.foldl
    (fun acc e =>
      let a1 := if e.Included then acc.1 + 1 else acc.1
      let a2 := if e.RootRecord.IsCoverageAboveThreshold num den then acc.2.1 + 1 else acc.2.1
      let a3 := if e.RootRecord.IsCoverageAboveThreshold num den ∧ e.Included
                then acc.2.2 + 1 else acc.2.2
      (a1, a2, a3))
    (0, 0, 0)

/-- `api.CalcTxInclusionScore` -/
def CalcTxInclusionScore (inclusion : TxInclusion) (num den : Nat) : TxInclusionScore :=
  let ret : TxInclusionScore :=
    { ThresholdNumerator := num
      ThresholdDenominator := den
      LatestSlot := inclusion.LatestSlot
      EarliestSlot := inclusion.EarliestSlot
      StrongScore := 0
      WeakScore := 0 }
  if inclusion.Inclusion.length = 0 then ret
  else
    let c := inclusionCounts inclusion.Inclusion num den
    let ret := { ret with WeakScore := c.1 * 100 / inclusion.Inclusion.length }
    if c.2.1 > 0 then { ret with StrongScore := c.2.2 * 100 / c.2.1 }
    else ret

/-! ## Ledger time and the sequencer target time (sequencer) -/

/-- Modelled from the spec: ledger time (`ledger.Time`, a `(slot, tick)`
pair whose source is not in this repository) counted as total ticks since
genesis; `tps` is the number of ticks per slot and slot boundaries are the
multiples of `tps`. -/
def nextSlotBoundary (tps t : Nat) : Nat :=
  (t / tps + 1) * tps

/-- Modelled from the spec: `ledger.Time.TicksToNextSlotBoundary`. -/
def ticksToNextSlotBoundary (tps t : Nat) : Nat :=
  nextSlotBoundary tps t - t

/-- `(*Sequencer).getNextTargetTime` after its clock-synchronisation
sleeps (which establish `prevMilestoneTs ≤ nowis`): the returned target
ledger time as a function of ticks-per-slot `tps`, the configured `pace`,
the previous own milestone timestamp `prev` and the current ledger time
`now`. -/
def getNextTargetTime (tps pace prev now : Nat) : Nat :=
  let targetAbsoluteMinimum := max (prev + pace) (now + 1)
  let boundary := nextSlotBoundary tps now
  if boundary ≤ targetAbsoluteMinimum then targetAbsoluteMinimum
  else
    let minimumTicksAheadFromNow := pace * 2 / 3
    let target2 := max targetAbsoluteMinimum (now + minimumTicksAheadFromNow)
    if boundary ≤ target2 then target2
    else if ticksToNextSlotBoundary tps target2 ≤ pace then boundary
    else target2

/-- The target-time rule as the claim words it: `max(prev+pace, now+1)`,
rounded up to the next slot boundary when within `pace/1.5` (integer
`2*pace/3`) ticks of it. -/
def getNextTargetTimeClaimed (tps pace prev now : Nat) : Nat :=
  let t := max (prev + pace) (now + 1)
  if ticksToNextSlotBoundary tps t ≤ pace * 2 / 3 then nextSlotBoundary tps t
  else t

/-! ## WrappedTx status (core/vertex) -/

/-- `vertex.Status` -/
inductive Status where
  | Undefined
  | Good
  | Bad
  deriving Repr, DecidableEq

/-- The status-relevant mutable fields of a `vertex.WrappedTx`:
whether `FlagVertexDefined` is up in `flags`, and the `err` field
(`Option` standing for the Go `error`, `none` = nil). -/
structure VidStatus where
  vertexDefined : Bool
  err : Option String
  deriving Repr, DecidableEq

/-- `(*WrappedTx).GetTxStatusNoLock`; the `util.Assertf(vid.err == nil)`
in the undefined branch is modelled by `none` (panic). -/
def GetTxStatusNoLock (s : VidStatus) : Option Status :=
  if ¬s.vertexDefined then
    if s.err = none then some .Undefined else none
  else if s.err ≠ none then some .Bad
  else some .Good

/-- `(*WrappedTx).SetTxStatusGood`: asserts the current status is
`Undefined` (else panic = `none`), then raises `FlagVertexDefined`. -/
def SetTxStatusGood (s : VidStatus) : Option VidStatus :=
  if GetTxStatusNoLock s = some .Undefined then
    some { s with vertexDefined := true }
  else none

/-- `(*WrappedTx).SetTxStatusBadNoLock`: asserts the current status is
`Undefined` (else panic = `none`), raises `FlagVertexDefined` and stores
the reason in `err`. -/
def SetTxStatusBadNoLock (s : VidStatus) (reason : String) : Option VidStatus :=
  if GetTxStatusNoLock s = some .Undefined then
    some { vertexDefined := true, err := some reason }
  else none

/-! ## WrappedTx reference counting and deletion (core/vertex) -/

/-- The three shapes of the `_genericWrapper` sum inside `WrappedTx`. -/
inductive VShape where
  | vertexShape
  | virtualTx
  | deleted
  deriving Repr, DecidableEq

/-- The fields of a `vertex.WrappedTx` relevant to reference counting. -/
structure VtxRec where
  refs : Nat
  shape : VShape
  deriving Repr, DecidableEq

/-- `(*WrappedTx).Reference`: returns `false` without incrementing when
the count is already 0; asserts no overflow past `math.MaxUint16`. -/
def Reference (r : VtxRec) : Option (Bool × VtxRec) :=
  if r.refs = 0 then some (false, r)
  else if r.refs < 65535 then some (true, { r with refs := r.refs + 1 })
  else none

/-- `(*WrappedTx).UnReference`: asserts the count is positive (else
panic = `none`) and decrements it. -/
def UnReference (r : VtxRec) : Option VtxRec :=
  if r.refs > 0 then some { r with refs := r.refs - 1 } else none

/-- `(*WrappedTx).MarkDeleted`: converts a vertex or virtual-tx shape to
the deleted tombstone; panics (`none`) when already deleted. -/
def MarkDeleted (r : VtxRec) : Option VtxRec :=
  match r.shape with
  | .vertexShape => some { r with shape := .deleted }
  | .virtualTx => some { r with shape := .deleted }
  | .deleted => none

/-- The DAG registry map `txid → WrappedTx` (`none` = absent). -/
def Registry : Type := Nat → Option VtxRec

/-- Modelled from the spec: the registry-level `unreference(v)` ("decrement;
when it reaches 0 convert shape to Deleted and remove from the registry");
the registry's eviction code is not in this repository, so the operation is
composed here from the source's `UnReference` and `MarkDeleted`, returning
the updated registry together with the final state of the vertex. -/
def regUnreference (m : Registry) (k : Nat) : Option (Registry × VtxRec) :=
  match m k with
  | none => none
  | some r =>
    match UnReference r with
    | none => none
    | some r' =>
      if r'.refs = 0 then
        match MarkDeleted r' with
        | none => none
        | some rDel => some (fun j => if j = k then none else m j, rDel)
      else some (fun j => if j = k then some r' else m j, r')

/-! ## Sequencer tips pool (core/work_process/tippool, core/vertex) -/

/-- A transaction ID as the tie-break code reads it: its logical
timestamp (`Timestamp()`, total ticks) and its 32 raw bytes. -/
structure TxID where
  ts : Nat
  bytes : List Nat
  deriving Repr, DecidableEq

/-- Go's `bytes.Compare`: lexicographic, a proper prefix sorts first. -/
def goCompare : List Nat → List Nat → Ordering
  | [], [] => .eq
  | [], _ :: _ => .lt
  | _ :: _, [] => .gt
  | a :: as, b :: bs =>
      if a < b then .lt else if b < a then .gt else goCompare as bs

/-- `vertex.IsPreferredBase`: coverage first; on equal coverage, younger
timestamp; on equal timestamp, bigger txid bytes; `none` txids (nil
pointers) are never preferred. -/
def IsPreferredBase (covSum1 covSum2 : Nat) (txid1 txid2 : Option TxID) : Bool :=
  if covSum1 > covSum2 then true
  else if covSum1 = covSum2 then
    match txid1, txid2 with
    | some t1, some t2 =>
        if t1.ts = t2.ts then goCompare t1.bytes t2.bytes = .gt
        else decide (t2.ts < t1.ts)
    | _, _ => false
  else false

/-- A sequencer milestone as the tips pool sees it: pointer identity,
transaction ID, `LedgerCoverageSum()` and the reference count consulted
by `Reference()`. -/
structure Milestone where
  ptr : Nat
  ID : TxID
  cov : Nat
  refs : Nat
  deriving Repr, DecidableEq

/-- `vertex.IsPreferredMilestoneAgainstTheOther` on the non-nil milestones
the tips pool passes it: pointer-equal milestones are not preferred,
otherwise `IsPreferredBase` on coverage and txid. -/
def IsPreferredMilestoneAgainstTheOther (vid1 vid2 : Milestone) : Bool :=
  if vid1.ptr = vid2.ptr then false
  else IsPreferredBase vid1.cov vid2.cov (some vid1.ID) (some vid2.ID)

/-- `(*SequencerTips).oldReplaceWithNew`: strictly newer timestamp wins;
strictly older loses; equal timestamps fall to the milestone tie-break. -/
def oldReplaceWithNew (old incoming : Milestone) : Bool :=
  if old.ID.ts < incoming.ID.ts then true
  else if incoming.ID.ts < old.ID.ts then false
  else IsPreferredMilestoneAgainstTheOther incoming old

/-- The `latestMilestones` map of the tips pool (`none` = absent). -/
def TipState : Type := Nat → Option Milestone

def updateTip (m : TipState) (q : Nat) (v : Milestone) : TipState :=
  fun k => if k = q then some v else m k

/-- `(*SequencerTips).Consume` restricted to the `latestMilestones` map:
`q` is the incoming milestone's sequencer id, `v` the milestone; a stored
pointer-equal milestone is ignored, replacement is decided by
`oldReplaceWithNew`, and storing requires `Reference()` to succeed
(`v.refs > 0`). -/
def Consume (m : TipState) (q : Nat) (v : Milestone) : TipState :=
  match m q with
  | none => if v.refs > 0 then updateTip m q v else m
  | some old =>
      if old.ptr = v.ptr then m
      else if oldReplaceWithNew old v then
        (if v.refs > 0 then updateTip m q v else m)
      else m

/-! ## Poker (core/poker) -/

/-- `util.AppendUnique` on one element: append it unless already present. -/
def appendUnique (lst : List Nat) (x : Nat) : List Nat :=
  if x ∈ lst then lst else lst ++ [x]

/-- The three Poker commands (`CommandAdd`, `CommandPokeAll`,
`CommandPeriodicCleanup`); vertices are identified by their pointers.
The TTL clock is not modelled: a cleanup command carries the set of
`wanted` keys whose `keepUntil` has expired at that moment. -/
inductive PokerCmd where
  | add (wanted who : Nat)
  | pokeAll (wanted : Nat)
  | cleanup (expired : List Nat)
  deriving Repr, DecidableEq

/-- The Poker's `m` map `wanted → waitingList.waiting`; the empty list is
Go's zero value for an absent key, which `addCmd`, `pokeAllCmd` and
`periodicCleanup` treat exactly like an empty entry. -/
def PokerMap : Type := Nat → List Nat

/-- `(*Poker).consume` of one command: the updated map together with the
poke callbacks invoked during this command, as `(waiter, wanted)` pairs
(`vid.PokeWith(wanted)`), in invocation order. -/
def pokerStep (m : PokerMap) : PokerCmd → PokerMap × List (Nat × Nat)
  | .add wanted who =>
      let lst := m wanted
      let lst' := if lst = [] then [who] else appendUnique lst who
      (fun k => if k = wanted then lst' else m k, [])
  | .pokeAll wanted =>
      let lst := m wanted
      if lst = [] then (m, [])
      else (fun k => if k = wanted then [] else m k, lst.map fun w => (w, wanted))
  | .cleanup expired =>
      (fun k => if k ∈ expired then [] else m k, [])

/-- The single consumer task: commands executed strictly in arrival
order; returns the final map. -/
def pokerRun (m : PokerMap) (cmds : List PokerCmd) : PokerMap :=
  cmds.foldl (fun s c => (pokerStep s c).1) m

/-- A command that can remove an existing registration of waiters for
`wanted`: a `PokeAll(wanted)` or a TTL cleanup expiring `wanted`. -/
def removesWanted (c : PokerCmd) (wanted : Nat) : Bool :=
  match c with
  | .pokeAll w => w = wanted
  | .cleanup ks => wanted ∈ ks
  | .add _ _ => false

/-! ## Theorems -/

/-- C1: for every `RootRecord` with positive ledger coverage (and fields
within their machine-word ranges, the sequencer id being 32 bytes),
decoding the encoding yields the record back field by field; and the
decoder errors on any six-field input whose three 8-byte fields and
4-byte field do not have exactly those lengths. -/
theorem c1_rootRecord_roundtrip (r : RootRecord)
    (hcov : 0 < r.LedgerCoverage)
    (hcov64 : r.LedgerCoverage < 2 ^ 64)
    (hinfl : r.SlotInflation < 2 ^ 64)
    (hsup : r.Supply < 2 ^ 64)
    (hntx : r.NumTransactions < 2 ^ 32)
    (hseq : r.SequencerID.length = 32)
    (hroot : r.Root.length < 65536) :
    (∃ bs, r.Bytes = some bs ∧ RootRecordFromBytes bs = .ok r) ∧
    (∀ data f0 f1 f2 f3 f4 f5,
      parseFields numberOfElementsInRootRecord data = some [f0, f1, f2, f3, f4, f5] →
      ¬(f2.length = 8 ∧ f3.length = 8 ∧ f4.length = 8 ∧ f5.length = 4) →
      ∃ e, RootRecordFromBytes data = .error e) := by
  constructor
  · have hlens : ∀ f ∈ [r.SequencerID, r.Root, beBytes 8 r.LedgerCoverage,
        beBytes 8 r.SlotInflation, beBytes 8 r.Supply, beBytes 4 r.NumTransactions],
        f.length < 65536 := by
      intro f hf
      simp only [List.mem_cons, List.not_mem_nil, or_false] at hf
      rcases hf with rfl | rfl | rfl | rfl | rfl | rfl <;>
        first
        | omega
        | (rw [beBytes_length]; omega)
    have hparse := parseFields_serArr _ hlens
    norm_num at hparse
    refine ⟨_, by rw [RootRecord.Bytes, if_pos hcov], ?_⟩
    have e2 : beVal (beBytes 8 r.LedgerCoverage) = r.LedgerCoverage :=
      beVal_beBytes_of_lt (by norm_num at hcov64 ⊢; omega)
    have e3 : beVal (beBytes 8 r.SlotInflation) = r.SlotInflation :=
      beVal_beBytes_of_lt (by norm_num at hinfl ⊢; omega)
    have e4 : beVal (beBytes 8 r.Supply) = r.Supply :=
      beVal_beBytes_of_lt (by norm_num at hsup ⊢; omega)
    have e5 : beVal (beBytes 4 r.NumTransactions) = r.NumTransactions :=
      beVal_beBytes_of_lt (by norm_num at hntx ⊢; omega)
    simp only [RootRecordFromBytes, numberOfElementsInRootRecord, hparse,
      ChainIDFromBytes, if_pos hseq, VectorCommitmentFromBytes]
    rw [if_pos (by refine ⟨?_, ?_, ?_, ?_⟩ <;> rw [beBytes_length])]
    rw [e2, e3, e4, e5]
  · intro data f0 f1 f2 f3 f4 f5 hp hlen
    simp only [RootRecordFromBytes, hp]
    by_cases h0 : f0.length = 32
    · simp only [ChainIDFromBytes, if_pos h0, VectorCommitmentFromBytes,
        if_neg hlen]
      exact ⟨_, rfl⟩
    · simp only [ChainIDFromBytes, if_neg h0]
      exact ⟨_, rfl⟩

theorem c1_rootRecord_roundtrip_witness :
    (∃ bs, RootRecord.Bytes
        ⟨List.replicate 32 9, List.replicate 32 7, 1, 2, 3, 4⟩ = some bs ∧
      RootRecordFromBytes bs =
        .ok ⟨List.replicate 32 9, List.replicate 32 7, 1, 2, 3, 4⟩) ∧
    (∀ data f0 f1 f2 f3 f4 f5,
      parseFields numberOfElementsInRootRecord data = some [f0, f1, f2, f3, f4, f5] →
      ¬(f2.length = 8 ∧ f3.length = 8 ∧ f4.length = 8 ∧ f5.length = 4) →
      ∃ e, RootRecordFromBytes data = .error e) :=
  c1_rootRecord_roundtrip ⟨List.replicate 32 9, List.replicate 32 7, 1, 2, 3, 4⟩
    (by decide) (by decide) (by decide) (by decide) (by decide)
    (by decide) (by decide)

/-- C2 counterexample: at supply 5, coverage 5 and fraction 1/2 the code
classifies the root as dominating (its threshold is `((5/2)*1)*2 = 4`),
while the claim's formula `coverage > 2·supply·n/d` says it is not
(`5 > (2*5*1)/2 = 5` fails), the fraction being valid. -/
theorem c2_threshold_counterexample :
    ValidInclusionThresholdFraction 1 2 = true ∧
    RootRecord.IsCoverageAboveThreshold ⟨[], [], 5, 0, 5, 0⟩ 1 2 = true ∧
    ¬(5 > 2 * 5 * 1 / 2) := by decide

/-- C2 (amended): for a valid fraction `n/d` and a `uint64` supply, the
root is dominating iff `coverage > (supply / d) * n * 2 mod 2^64` — the
code's wrapping `uint64` arithmetic, with the integer division happening
before the multiplications; when the supply is below `2^63` no wrap
occurs, so this is exactly `coverage > (supply / d) * n * 2`; and the
fraction-validity predicate accepts exactly the pairs `0 < n < d`,
`d ≥ 2`. -/
theorem c2_threshold_amended (r : RootRecord) (n d : Nat)
    (hv : ValidInclusionThresholdFraction n d = true)
    (hsup64 : r.Supply < 2 ^ 64) :
    (r.IsCoverageAboveThreshold n d = true ↔
      r.LedgerCoverage > r.Supply / d * n * 2 % 2 ^ 64) ∧
    (r.Supply < 2 ^ 63 →
      (r.IsCoverageAboveThreshold n d = true ↔
        r.LedgerCoverage > r.Supply / d * n * 2)) ∧
    (∀ nz dz : Int,
      ValidInclusionThresholdFraction nz dz = true ↔ (0 < nz ∧ nz < dz ∧ 2 ≤ dz)) := by
  have hnd : 0 < n ∧ n < d ∧ 2 ≤ d := by
    simp only [ValidInclusionThresholdFraction, Bool.and_eq_true,
      decide_eq_true_eq] at hv
    omega
  have hle : r.Supply / d * n ≤ r.Supply := by
    calc r.Supply / d * n ≤ r.Supply / d * d :=
          Nat.mul_le_mul_left _ (le_of_lt hnd.2.1)
      _ ≤ r.Supply := Nat.div_mul_le_self _ _
  have hm1 : r.Supply / d * n % 2 ^ 64 = r.Supply / d * n :=
    Nat.mod_eq_of_lt (by norm_num at hsup64 ⊢; omega)
  refine ⟨?_, ?_, ?_⟩
  · rw [RootRecord.IsCoverageAboveThreshold, AbsoluteStrongFinalityCoverageThreshold,
      hm1]
    simp
  · intro hsup
    have hm2 : r.Supply / d * n * 2 % 2 ^ 64 = r.Supply / d * n * 2 :=
      Nat.mod_eq_of_lt (by norm_num at hsup ⊢; omega)
    rw [RootRecord.IsCoverageAboveThreshold, AbsoluteStrongFinalityCoverageThreshold,
      hm1, hm2]
    simp
  · intro nz dz
    simp only [ValidInclusionThresholdFraction, Bool.and_eq_true, decide_eq_true_eq]
    omega

theorem c2_threshold_amended_witness :
    ((RootRecord.IsCoverageAboveThreshold ⟨[], [], 5, 0, 5, 0⟩ 1 2 = true ↔
      5 > 5 / 2 * 1 * 2 % 2 ^ 64) ∧
    ((5 : Nat) < 2 ^ 63 →
      (RootRecord.IsCoverageAboveThreshold ⟨[], [], 5, 0, 5, 0⟩ 1 2 = true ↔
        5 > 5 / 2 * 1 * 2)) ∧
    (∀ nz dz : Int,
      ValidInclusionThresholdFraction nz dz = true ↔ (0 < nz ∧ nz < dz ∧ 2 ≤ dz))) :=
  c2_threshold_amended ⟨[], [], 5, 0, 5, 0⟩ 1 2 (by decide) (by decide)

/-- C9: with nothing written under the latest-slot partition key (empty
value), fetching the latest slot returns slot 0 rather than failing; a
non-empty well-formed (4-byte) value decodes to its big-endian slot. -/
theorem c9_fetch_latest_slot (store : KVReader) :
    (store [latestSlotDBPartition] = [] → FetchLatestSlot store = some 0) ∧
    (store [latestSlotDBPartition] ≠ [] →
      (store [latestSlotDBPartition]).length = 4 →
      FetchLatestSlot store = some (beVal (store [latestSlotDBPartition]))) := by
  constructor
  · intro h
    rw [FetchLatestSlot]
    simp [h]
  · intro hne hlen
    rw [FetchLatestSlot]
    simp only [if_neg hne]
    rw [SlotFromBytes, if_pos hlen]

theorem c9_fetch_latest_slot_witness :
    FetchLatestSlot (fun _ => []) = some 0 ∧
    FetchLatestSlot (fun _ => [0, 0, 1, 4]) = some 260 :=
  ⟨(c9_fetch_latest_slot (fun _ => [])).1 rfl,
    by
      have h := (c9_fetch_latest_slot (fun _ => [0, 0, 1, 4])).2
        (by decide) (by decide)
      simpa [beVal] using h⟩

theorem inclusionCounts_eq (entries : List InclusionEntry) (n d : Nat) :
    inclusionCounts entries n d =
      (entries.countP (·.Included),
       entries.countP (fun e => e.RootRecord.IsCoverageAboveThreshold n d),
       entries.countP (fun e =>
         e.RootRecord.IsCoverageAboveThreshold n d && e.Included)) := by
  have key : ∀ (l : List InclusionEntry) (a b c : Nat),
      l.foldl
        (fun acc e =>
          let a1 := if e.Included then acc.1 + 1 else acc.1
          let a2 := if e.RootRecord.IsCoverageAboveThreshold n d then acc.2.1 + 1 else acc.2.1
          let a3 := if e.RootRecord.IsCoverageAboveThreshold n d ∧ e.Included
                    then acc.2.2 + 1 else acc.2.2
          (a1, a2, a3))
        (a, b, c) =
      (a + l.countP (·.Included),
       b + l.countP (fun e => e.RootRecord.IsCoverageAboveThreshold n d),
       c + l.countP (fun e =>
         e.RootRecord.IsCoverageAboveThreshold n d && e.Included)) := by
    intro l
    induction l with
    | nil => intro a b c; simp
    | cons e l ih =>
        intro a b c
        rw [List.foldl_cons, ih]
        rcases hI : e.Included <;>
          rcases hD : e.RootRecord.IsCoverageAboveThreshold n d <;>
            simp [List.countP_cons, hI, hD] <;> omega
  rw [inclusionCounts, key]
  simp

/-- C3: the weak score is `(#tips including the tx) * 100 / #tips`, the
strong score is `(#dominating tips including it) * 100 / #dominating`,
0 when no tip is dominating; both scores are 0 for an empty inclusion
vector, and the `[included, included, not, not]` example at threshold 1/2
with all coverages above the threshold scores `weak = strong = 50`. -/
theorem c3_inclusion_score :
    (∀ (inc : TxInclusion) (n d : Nat),
      (CalcTxInclusionScore inc n d).WeakScore =
        inc.Inclusion.countP (·.Included) * 100 / inc.Inclusion.length ∧
      (CalcTxInclusionScore inc n d).StrongScore =
        (if 0 < inc.Inclusion.countP (fun e => e.RootRecord.IsCoverageAboveThreshold n d)
         then inc.Inclusion.countP
                (fun e => e.RootRecord.IsCoverageAboveThreshold n d && e.Included) * 100 /
              inc.Inclusion.countP (fun e => e.RootRecord.IsCoverageAboveThreshold n d)
         else 0)) ∧
    (∀ n d : Nat,
      (CalcTxInclusionScore ⟨0, 0, []⟩ n d).WeakScore = 0 ∧
      (CalcTxInclusionScore ⟨0, 0, []⟩ n d).StrongScore = 0) ∧
    ((CalcTxInclusionScore
        ⟨0, 0, [⟨⟨[], [], 5, 0, 4, 0⟩, true⟩, ⟨⟨[], [], 5, 0, 4, 0⟩, true⟩,
                ⟨⟨[], [], 5, 0, 4, 0⟩, false⟩, ⟨⟨[], [], 5, 0, 4, 0⟩, false⟩]⟩
        1 2).WeakScore = 50 ∧
     (CalcTxInclusionScore
        ⟨0, 0, [⟨⟨[], [], 5, 0, 4, 0⟩, true⟩, ⟨⟨[], [], 5, 0, 4, 0⟩, true⟩,
                ⟨⟨[], [], 5, 0, 4, 0⟩, false⟩, ⟨⟨[], [], 5, 0, 4, 0⟩, false⟩]⟩
        1 2).StrongScore = 50 ∧
     ∀ e ∈ [(⟨⟨[], [], 5, 0, 4, 0⟩, true⟩ : InclusionEntry),
            ⟨⟨[], [], 5, 0, 4, 0⟩, true⟩, ⟨⟨[], [], 5, 0, 4, 0⟩, false⟩,
            ⟨⟨[], [], 5, 0, 4, 0⟩, false⟩],
       e.RootRecord.IsCoverageAboveThreshold 1 2 = true) := by
  refine ⟨?_, ?_, by decide⟩
  · intro inc n d
    by_cases hn : inc.Inclusion.length = 0
    · have hnil : inc.Inclusion = [] := List.length_eq_zero.mp hn
      rw [CalcTxInclusionScore]
      simp [hn, hnil]
    · rw [CalcTxInclusionScore]
      simp only [if_neg hn, inclusionCounts_eq]
      constructor
      · split_ifs <;> rfl
      · split_ifs <;> rfl
  · intro n d
    constructor <;> rfl

/-- C4 counterexample: with 100 ticks per slot, pace 30, previous
milestone at tick 40 and ledger time now at tick 50, the code returns the
slot boundary (tick 100) while the claim's rule returns
`max(prev+pace, now+1) = 70`, which is more than `pace/1.5 = 20` ticks
from the boundary and so would not be rounded. -/
theorem c4_target_time_counterexample :
    getNextTargetTime 100 30 40 50 = 100 ∧
    getNextTargetTimeClaimed 100 30 40 50 = 70 ∧
    (100 : Nat) ≠ 70 := by decide

/-- C4 (amended): writing `t0 = max(prev+pace, now+1)`,
`b` for the next slot boundary after `now` and `t1 = max(t0, now + 2*pace/3)`,
the code returns `t0` when `t0` reaches `b`; otherwise `t1` when `t1`
reaches `b`; otherwise `b` exactly when `t1` is within `pace` ticks of a
slot boundary; otherwise `t1`. In every case the returned target is at
least `prev + pace` and strictly after `now`, so consecutive own
milestone timestamps differ by at least `pace` ticks. -/
theorem c4_target_time_amended (tps pace prev now : Nat)
    (htps : 0 < tps) (hnow : prev ≤ now) :
    (nextSlotBoundary tps now ≤ max (prev + pace) (now + 1) →
      getNextTargetTime tps pace prev now = max (prev + pace) (now + 1)) ∧
    (max (prev + pace) (now + 1) < nextSlotBoundary tps now →
      nextSlotBoundary tps now ≤ max (max (prev + pace) (now + 1)) (now + pace * 2 / 3) →
      getNextTargetTime tps pace prev now =
        max (max (prev + pace) (now + 1)) (now + pace * 2 / 3)) ∧
    (max (max (prev + pace) (now + 1)) (now + pace * 2 / 3) < nextSlotBoundary tps now →
      ticksToNextSlotBoundary tps
          (max (max (prev + pace) (now + 1)) (now + pace * 2 / 3)) ≤ pace →
      getNextTargetTime tps pace prev now = nextSlotBoundary tps now) ∧
    (max (max (prev + pace) (now + 1)) (now + pace * 2 / 3) < nextSlotBoundary tps now →
      pace < ticksToNextSlotBoundary tps
          (max (max (prev + pace) (now + 1)) (now + pace * 2 / 3)) →
      getNextTargetTime tps pace prev now =
        max (max (prev + pace) (now + 1)) (now + pace * 2 / 3)) ∧
    prev + pace ≤ getNextTargetTime tps pace prev now ∧
    now < getNextTargetTime tps pace prev now := by
  simp only [getNextTargetTime]
  split_ifs with h1 h2 h3 <;>
    refine ⟨?_, ?_, ?_, ?_, ?_, ?_⟩ <;> omega

theorem c4_target_time_amended_witness :
    ((nextSlotBoundary 100 50 ≤ max (40 + 30) (50 + 1) →
      getNextTargetTime 100 30 40 50 = max (40 + 30) (50 + 1)) ∧
    (max (40 + 30) (50 + 1) < nextSlotBoundary 100 50 →
      nextSlotBoundary 100 50 ≤ max (max (40 + 30) (50 + 1)) (50 + 30 * 2 / 3) →
      getNextTargetTime 100 30 40 50 =
        max (max (40 + 30) (50 + 1)) (50 + 30 * 2 / 3)) ∧
    (max (max (40 + 30) (50 + 1)) (50 + 30 * 2 / 3) < nextSlotBoundary 100 50 →
      ticksToNextSlotBoundary 100
          (max (max (40 + 30) (50 + 1)) (50 + 30 * 2 / 3)) ≤ 30 →
      getNextTargetTime 100 30 40 50 = nextSlotBoundary 100 50) ∧
    (max (max (40 + 30) (50 + 1)) (50 + 30 * 2 / 3) < nextSlotBoundary 100 50 →
      30 < ticksToNextSlotBoundary 100
          (max (max (40 + 30) (50 + 1)) (50 + 30 * 2 / 3)) →
      getNextTargetTime 100 30 40 50 =
        max (max (40 + 30) (50 + 1)) (50 + 30 * 2 / 3)) ∧
    40 + 30 ≤ getNextTargetTime 100 30 40 50 ∧
    50 < getNextTargetTime 100 30 40 50) :=
  c4_target_time_amended 100 30 40 50 (by decide) (by decide)

/-- C5: setting status Good or Bad panics unless the current status is
Undefined, and once the vertex-defined flag is up with the error field
fixed the status is terminal: a Good vertex can never become Bad nor a
Bad one Good through the set-status operations. -/
theorem c5_status_terminal (s : VidStatus) (reason reason2 : String) :
    (GetTxStatusNoLock s ≠ some .Undefined →
      SetTxStatusGood s = none ∧ SetTxStatusBadNoLock s reason = none) ∧
    (∀ s', SetTxStatusGood s = some s' →
      GetTxStatusNoLock s' = some .Good ∧
      SetTxStatusGood s' = none ∧ SetTxStatusBadNoLock s' reason2 = none) ∧
    (∀ s', SetTxStatusBadNoLock s reason = some s' →
      GetTxStatusNoLock s' = some .Bad ∧
      SetTxStatusGood s' = none ∧ SetTxStatusBadNoLock s' reason2 = none) := by
  refine ⟨?_, ?_, ?_⟩
  · intro h
    rw [SetTxStatusGood, if_neg h, SetTxStatusBadNoLock, if_neg h]
    exact ⟨rfl, rfl⟩
  · intro s' h
    rw [SetTxStatusGood] at h
    split_ifs at h with hu
    obtain rfl : { s with vertexDefined := true } = s' := Option.some.inj h
    rw [GetTxStatusNoLock] at hu ⊢
    split_ifs at hu ⊢ with h1 h2 <;> simp_all [GetTxStatusNoLock, SetTxStatusGood,
      SetTxStatusBadNoLock]
  · intro s' h
    rw [SetTxStatusBadNoLock] at h
    split_ifs at h with hu
    obtain rfl : ({ vertexDefined := true, err := some reason } : VidStatus) = s' :=
      Option.some.inj h
    refine ⟨rfl, ?_, ?_⟩ <;>
      simp [SetTxStatusGood, SetTxStatusBadNoLock, GetTxStatusNoLock]

theorem c5_status_terminal_witness :
    SetTxStatusGood ⟨true, none⟩ = none ∧
    SetTxStatusBadNoLock ⟨true, none⟩ "err" = none :=
  (c5_status_terminal ⟨true, none⟩ "err" "err2").1 (by decide)

/-- Tie-break characterisation used by C6: with distinct pointers, the
incoming milestone replaces the old one iff it is strictly younger, or
has the same timestamp and higher coverage, or the same timestamp and
coverage and byte-wise bigger transaction ID. -/
theorem oldReplaceWithNew_iff (old v : Milestone) (hptr : old.ptr ≠ v.ptr) :
    oldReplaceWithNew old v = true ↔
      (old.ID.ts < v.ID.ts ∨
        (v.ID.ts = old.ID.ts ∧
          (old.cov < v.cov ∨
            (v.cov = old.cov ∧ goCompare v.ID.bytes old.ID.bytes = .gt)))) := by
  rw [oldReplaceWithNew, IsPreferredMilestoneAgainstTheOther, IsPreferredBase]
  have hptr' : v.ptr ≠ old.ptr := fun h => hptr h.symm
  split_ifs with h1 h2 h3 h4 h5 <;>
    simp_all <;> omega

/-- C6: the tips pool stores an incoming milestone when none is stored
for its chain id; a stored tip is replaced exactly when the incoming
milestone is strictly newer, or has an equal timestamp and wins the
tie-break (higher coverage first, then byte-wise larger txid); an older
incoming milestone leaves the pool unchanged.  `Reference()` succeeding
(`0 < v.refs`) and pointer-distinctness are the code's side conditions. -/
theorem c6_tippool_consume (m : TipState) (q : Nat) (v : Milestone)
    (href : 0 < v.refs) :
    (m q = none → Consume m q v q = some v) ∧
    (∀ old, m q = some old → old.ptr ≠ v.ptr →
      ((Consume m q v q = some v) ↔
        (old.ID.ts < v.ID.ts ∨
          (v.ID.ts = old.ID.ts ∧
            (old.cov < v.cov ∨
              (v.cov = old.cov ∧ goCompare v.ID.bytes old.ID.bytes = .gt))))) ∧
      (v.ID.ts < old.ID.ts → Consume m q v = m) ∧
      (¬oldReplaceWithNew old v → Consume m q v = m)) := by
  constructor
  · intro h
    rw [Consume, h]
    simp only [if_pos href]
    rw [updateTip, if_pos rfl]
  · intro old hold hptr
    have hbody : Consume m q v =
        (if old.ptr = v.ptr then m
         else if oldReplaceWithNew old v then
           (if v.refs > 0 then updateTip m q v else m)
         else m) := by
      rw [Consume, hold]
    refine ⟨?_, ?_, ?_⟩
    · rw [hbody, if_neg hptr]
      by_cases hrep : oldReplaceWithNew old v
      · rw [if_pos hrep, if_pos href]
        rw [updateTip]
        simp only [if_pos rfl, true_iff]
        rw [← oldReplaceWithNew_iff old v hptr]
        exact ⟨fun _ => hrep, fun _ => rfl⟩
      · rw [if_neg hrep]
        rw [← oldReplaceWithNew_iff old v hptr]
        constructor
        · intro hc
          rw [hold] at hc
          exact absurd (Option.some.inj hc) (by
            intro he
            exact hptr (by rw [he]))
        · intro hc
          exact absurd (by simpa using hc) hrep
    · intro hts
      rw [hbody, if_neg hptr, if_neg ?_]
      intro hrep
      rw [oldReplaceWithNew_iff old v hptr] at hrep
      omega
    · intro hrep
      rw [hbody, if_neg hptr, if_neg hrep]

theorem c6_tippool_consume_witness :
    (((fun _ => none : TipState) 0 = none →
      Consume (fun _ => none) 0 ⟨1, ⟨5, [3]⟩, 7, 1⟩ 0 = some ⟨1, ⟨5, [3]⟩, 7, 1⟩) ∧
    (∀ old, (fun _ => none : TipState) 0 = some old → old.ptr ≠ 1 →
      ((Consume (fun _ => none) 0 ⟨1, ⟨5, [3]⟩, 7, 1⟩ 0 = some ⟨1, ⟨5, [3]⟩, 7, 1⟩) ↔
        (old.ID.ts < 5 ∨
          (5 = old.ID.ts ∧
            (old.cov < 7 ∨ (7 = old.cov ∧ goCompare [3] old.ID.bytes = .gt))))) ∧
      (5 < old.ID.ts → Consume (fun _ => none) 0 ⟨1, ⟨5, [3]⟩, 7, 1⟩ = fun _ => none) ∧
      (¬oldReplaceWithNew old ⟨1, ⟨5, [3]⟩, 7, 1⟩ →
        Consume (fun _ => none) 0 ⟨1, ⟨5, [3]⟩, 7, 1⟩ = fun _ => none))) :=
  c6_tippool_consume (fun _ => none) 0 ⟨1, ⟨5, [3]⟩, 7, 1⟩ (by decide)

/-- C7: un-referencing a live vertex decrements the count by exactly one;
when the count reaches 0 the registry-level unreference converts the
shape to Deleted and removes the entry from the registry; and a count of
0 is terminal, since `Reference()` refuses to resurrect it. -/
theorem c7_unreference (m : Registry) (k : Nat) (r : VtxRec)
    (hk : m k = some r) (hpos : 0 < r.refs) (hshape : r.shape ≠ .deleted) :
    UnReference r = some { r with refs := r.refs - 1 } ∧
    (1 < r.refs → ∃ res, regUnreference m k = some res ∧
      res.1 k = some { r with refs := r.refs - 1 }) ∧
    (r.refs = 1 → ∃ res, regUnreference m k = some res ∧
      res.1 k = none ∧ res.2.shape = .deleted ∧ res.2.refs = 0) ∧
    (∀ r0 : VtxRec, r0.refs = 0 → Reference r0 = some (false, r0)) := by
  have hun : UnReference r = some { r with refs := r.refs - 1 } := by
    rw [UnReference, if_pos hpos]
  refine ⟨hun, ?_, ?_, ?_⟩
  · intro h1
    simp only [regUnreference, hk, hun]
    rw [if_neg (by show ¬(r.refs - 1 = 0); omega)]
    exact ⟨_, rfl, by simp⟩
  · intro h1
    simp only [regUnreference, hk, hun]
    rw [if_pos (by show r.refs - 1 = 0; omega)]
    rcases hs : r.shape with _ | _ | _
    · simp only [MarkDeleted, hs]
      exact ⟨_, rfl, by simp, rfl, by simp [h1]⟩
    · simp only [MarkDeleted, hs]
      exact ⟨_, rfl, by simp, rfl, by simp [h1]⟩
    · exact absurd hs hshape
  · intro r0 h0
    rw [Reference, if_pos h0]

theorem c7_unreference_witness :
    (UnReference ⟨1, .vertexShape⟩ = some ⟨0, .vertexShape⟩ ∧
    (1 < 1 → ∃ res,
      regUnreference (fun j => if j = 0 then some ⟨1, .vertexShape⟩ else none) 0 = some res ∧
      res.1 0 = some ⟨0, .vertexShape⟩) ∧
    (1 = 1 → ∃ res,
      regUnreference (fun j => if j = 0 then some ⟨1, .vertexShape⟩ else none) 0 = some res ∧
      res.1 0 = none ∧ res.2.shape = .deleted ∧ res.2.refs = 0) ∧
    (∀ r0 : VtxRec, r0.refs = 0 → Reference r0 = some (false, r0))) :=
  c7_unreference (fun j => if j = 0 then some ⟨1, .vertexShape⟩ else none) 0
    ⟨1, .vertexShape⟩ (by decide) (by decide) (by decide)

theorem mem_appendUnique (lst : List Nat) (x : Nat) : x ∈ appendUnique lst x := by
  rw [appendUnique]
  split_ifs with h
  · exact h
  · simp

theorem mem_appendUnique_of_mem {lst : List Nat} {x : Nat} (y : Nat)
    (h : x ∈ lst) : x ∈ appendUnique lst y := by
  rw [appendUnique]
  split_ifs <;> simp [h]

theorem pokerStep_add_fst (m : PokerMap) (wd who k : Nat) :
    (pokerStep m (.add wd who)).1 k =
      if k = wd then (if m wd = [] then [who] else appendUnique (m wd) who)
      else m k := rfl

theorem pokerStep_pokeAll_eq (m : PokerMap) (wd : Nat) :
    pokerStep m (.pokeAll wd) =
      if m wd = [] then (m, [])
      else (fun k => if k = wd then [] else m k, (m wd).map fun w => (w, wd)) := rfl

theorem pokerStep_cleanup_fst (m : PokerMap) (ks : List Nat) (k : Nat) :
    (pokerStep m (.cleanup ks)).1 k = if k ∈ ks then [] else m k := rfl

theorem mem_pokerStep_add (m : PokerMap) (wanted w : Nat) :
    w ∈ (pokerStep m (.add wanted w)).1 wanted := by
  rw [pokerStep_add_fst, if_pos rfl]
  split_ifs with h
  · simp
  · exact mem_appendUnique _ _

theorem mem_pokerStep_preserved {m : PokerMap} {wanted w : Nat}
    (c : PokerCmd) (hmem : w ∈ m wanted)
    (hc : removesWanted c wanted = false) :
    w ∈ (pokerStep m c).1 wanted := by
  rcases c with ⟨wd, who⟩ | wd | ks
  · rw [pokerStep_add_fst]
    by_cases he : wanted = wd
    · subst he
      rw [if_pos rfl]
      have hne : ¬(m wanted = []) := by
        intro h0
        rw [h0] at hmem
        exact absurd hmem (List.not_mem_nil w)
      rw [if_neg hne]
      exact mem_appendUnique_of_mem _ hmem
    · rwa [if_neg he]
  · rw [removesWanted] at hc
    have hne : ¬(wanted = wd) := by
      intro h
      rw [h] at hc
      simp at hc
    rw [pokerStep_pokeAll_eq]
    split_ifs with h0
    · exact hmem
    · show w ∈ (if wanted = wd then [] else m wanted)
      rwa [if_neg hne]
  · rw [removesWanted] at hc
    have hnk : ¬(wanted ∈ ks) := by simpa using hc
    rw [pokerStep_cleanup_fst]
    rwa [if_neg hnk]

theorem mem_pokerRun_preserved {m : PokerMap} {wanted w : Nat}
    (cmds : List PokerCmd) (hmem : w ∈ m wanted)
    (hcmds : ∀ c ∈ cmds, removesWanted c wanted = false) :
    w ∈ pokerRun m cmds wanted := by
  induction cmds generalizing m with
  | nil => exact hmem
  | cons c rest ih =>
      rw [pokerRun, List.foldl_cons]
      exact ih
        (mem_pokerStep_preserved c hmem (hcmds c (List.mem_cons_self _ _)))
        (fun c' hc' => hcmds c' (List.mem_cons_of_mem _ hc'))

theorem pokerRun_append (m : PokerMap) (xs ys : List PokerCmd) :
    pokerRun m (xs ++ ys) = pokerRun (pokerRun m xs) ys := by
  rw [pokerRun, pokerRun, pokerRun, List.foldl_append]

/-- C8 counterexample: with commands `[Wait(0, waiter 1), PokeAll(0),
PokeAll(0)]`, the `Wait` enters the queue before the second `PokeAll(0)`,
yet processing that second `PokeAll` invokes no poke callback at all (the
first `PokeAll` already dropped the waiting list), although the same
`Wait` was seen by the first `PokeAll`. -/
theorem c8_poker_counterexample :
    (pokerStep (pokerRun (fun _ => []) [.add 0 1, .pokeAll 0]) (.pokeAll 0)).2 = [] ∧
    ¬((1, 0) ∈ (pokerStep (pokerRun (fun _ => []) [.add 0 1, .pokeAll 0]) (.pokeAll 0)).2) ∧
    (pokerStep (pokerRun (fun _ => []) [.add 0 1]) (.pokeAll 0)).2 = [(1, 0)] := by
  refine ⟨?_, ?_, ?_⟩ <;> decide

/-- C8 (amended): a `Wait(wanted, w)` that enters the single-consumer
command queue before a `PokeAll(wanted)` is seen by that `PokeAll` —
i.e. during its processing, `w`'s poke callback is invoked with `wanted` —
provided no command strictly between them already dropped the waiting
list for `wanted` (an earlier `PokeAll(wanted)` or a TTL cleanup expiring
`wanted`). -/
theorem c8_poker_wait_then_pokeall (m : PokerMap) (pre mid : List PokerCmd)
    (wanted w : Nat)
    (hmid : ∀ c ∈ mid, removesWanted c wanted = false) :
    (w, wanted) ∈
      (pokerStep (pokerRun m (pre ++ PokerCmd.add wanted w :: mid))
        (PokerCmd.pokeAll wanted)).2 := by
  have hmem : w ∈ pokerRun m (pre ++ PokerCmd.add wanted w :: mid) wanted := by
    have h0 : pokerRun m (pre ++ PokerCmd.add wanted w :: mid) =
        pokerRun (pokerRun m pre) (PokerCmd.add wanted w :: mid) :=
      pokerRun_append m pre _
    rw [h0, pokerRun, List.foldl_cons]
    exact mem_pokerRun_preserved mid (mem_pokerStep_add _ _ _) hmid
  set s := pokerRun m (pre ++ PokerCmd.add wanted w :: mid)
  rw [pokerStep_pokeAll_eq]
  have hne : ¬(s wanted = []) := by
    intro h0
    rw [h0] at hmem
    exact absurd hmem (List.not_mem_nil w)
  rw [if_neg hne]
  exact List.mem_map_of_mem _ hmem

theorem c8_poker_wait_then_pokeall_witness :
    (1, 0) ∈
      (pokerStep (pokerRun (fun _ => []) ([] ++ PokerCmd.add 0 1 :: []))
        (PokerCmd.pokeAll 0)).2 :=
  c8_poker_wait_then_pokeall (fun _ => []) [] [] 0 1 (by intro c hc; cases hc)

/-- C10: the waiting lists hold no duplicate waiters — every command
preserves duplicate-freeness of every list, and registering a waiter
(even repeatedly) leaves exactly one entry for it — and consequently a
`PokeAll` invokes each waiter's callback at most once. -/
theorem c10_poker_no_duplicates (m : PokerMap) (hm : ∀ k, (m k).Nodup) :
    (∀ (c : PokerCmd) (k : Nat), ((pokerStep m c).1 k).Nodup) ∧
    (∀ wanted w, ((pokerStep m (.add wanted w)).1 wanted).count w = 1) ∧
    (∀ wanted w,
      (((pokerStep m (.pokeAll wanted)).2.map Prod.fst).count w) ≤ 1) := by
  have hauNodup : ∀ (lst : List Nat) (x : Nat), lst.Nodup → (appendUnique lst x).Nodup := by
    intro lst x h
    rw [appendUnique]
    split_ifs with hx
    · exact h
    · simp [List.nodup_append, h, hx]
  refine ⟨?_, ?_, ?_⟩
  · intro c k
    rcases c with ⟨wd, who⟩ | wd | ks
    · rw [pokerStep_add_fst]
      split_ifs with he h0
      · simp
      · exact hauNodup _ _ (hm wd)
      · exact hm k
    · rw [pokerStep_pokeAll_eq]
      split_ifs with h0
      · exact hm k
      · show (if k = wd then [] else m k).Nodup
        split_ifs with he
        · simp
        · exact hm k
    · rw [pokerStep_cleanup_fst]
      split_ifs with he
      · simp
      · exact hm k
  · intro wanted w
    have hnd : ((pokerStep m (.add wanted w)).1 wanted).Nodup := by
      rw [pokerStep_add_fst, if_pos rfl]
      split_ifs with h0
      · simp
      · exact hauNodup _ _ (hm wanted)
    exact List.count_eq_one_of_mem hnd (mem_pokerStep_add m wanted w)
  · intro wanted w
    rw [pokerStep_pokeAll_eq]
    split_ifs with h0
    · simp
    · show ((((m wanted).map fun w => (w, wanted)).map Prod.fst).count w) ≤ 1
      have hmap : (((m wanted).map fun w => (w, wanted)).map Prod.fst) = m wanted := by
        rw [List.map_map]
        exact List.map_id _
      rw [hmap]
      exact List.nodup_iff_count_le_one.mp (hm wanted) w

theorem c10_poker_no_duplicates_witness :
    ((pokerStep (fun _ => []) (.add 0 1)).1 0).count 1 = 1 :=
  (c10_poker_no_duplicates (fun _ => []) (fun _ => List.nodup_nil)).2.1 0 1

end Proxima
